import Mathlib

/-!
Shallow embedding of the core of the `torchio` repository
(`src/torchio/data/subject.py`, `src/torchio/data/sampler/uniform.py`,
`src/torchio/transforms/preprocessing/intensity/mask.py`).

Python machine reals are modelled as rationals, Python lists/tuples as Lean
lists, Python exceptions as explicit error results.  The external `Image`
entity (out of scope in the spec, used only through its interface) is
modelled as a bundle of named attribute values plus a type tag; its spatial
`__getitem__` is passed around as an abstract function where needed.
-/

namespace TorchioSpec

/-- An attribute value of an image, as seen by `getattr(image, attribute)`:
either a numeric array (scalars are length-one arrays) or a non-numeric
value such as a string.  `numpy.allclose` raises `TypeError` on the latter. -/
inductive AttrValue where
  | num (xs : List ℚ)
  | str (s : String)
deriving DecidableEq, Repr

/-- Outcome of one `np.allclose(current, first, rtol, atol)` call. -/
inductive CmpOutcome where
  | ok (b : Bool)
  | typeError
  | valueError
deriving DecidableEq, Repr

/-- `np.allclose(a, b, rtol, atol)`: true when for every element pair
`|a_i - b_i| <= atol + rtol * |b_i|`.  Non-numeric operands raise
`TypeError`; a shape mismatch between two numeric arrays is modelled as
`valueError` (an uncaught comparison error, not a consistency error). -/
def allclose (a b : AttrValue) (rtol atol : ℚ) : CmpOutcome :=
  match a, b with
  | .num xs, .num ys =>
    if xs.length = ys.length then
      .ok ((xs.zip ys).all fun q => decide (|q.1 - q.2| ≤ atol + rtol * |q.2|))
    else .valueError
  | _, _ => .typeError

/-- Result of `Subject.check_consistent_attribute`:  it either returns
normally, raises the consistency `RuntimeError`, or propagates an
uncaught numeric-comparison error. -/
inductive CheckResult where
  | ok
  | consistencyError
  | comparisonError
deriving DecidableEq, Repr

/-- Outcome of the `for` loop inside `check_consistent_attribute` that
compares every later image attribute against the first one. -/
inductive LoopOutcome where
  | passed
  | failedClose
  | typeErr
  | valueErr
deriving DecidableEq, Repr

/-- The comparison loop of `check_consistent_attribute`: walk the values
after the first one, comparing each against the first with `np.allclose`;
stop at the first failed comparison or raised error. -/
def checkLoop (first : AttrValue) (rtol atol : ℚ) : List AttrValue → LoopOutcome
  | [] => .passed
  | v :: rest =>
    match allclose v first rtol atol with
    | .ok true => checkLoop first rtol atol rest
    | .ok false => .failedClose
    | .typeError => .typeErr
    | .valueError => .valueErr

/-- `Subject.check_consistent_attribute` on the list of attribute values of
the subject's images, in insertion order.  The first value is the
reference.  A `TypeError` raised by `np.allclose` triggers the fallback:
collect all values into a set and fail iff it has more than one element. -/
def checkValues (vals : List AttrValue) (rtol atol : ℚ) : CheckResult :=
  match vals with
  | [] => .ok
  | v0 :: rest =>
    match checkLoop v0 rtol atol rest with
    | .passed => .ok
    | .failedClose => .consistencyError
    | .valueErr => .comparisonError
    | .typeErr => if 1 < vals.toFinset.card then .consistencyError else .ok

/-- Two attribute values are numerically comparable (the `np.allclose`
call returns a boolean rather than raising): both numeric, same shape. -/
def numComparable (a b : AttrValue) : Bool :=
  match a, b with
  | .num xs, .num ys => xs.length = ys.length
  | _, _ => false

/-- Two numeric values of the same shape that `np.allclose` would compare
elementwise, but with different shapes: the one situation where the
comparison raises neither cleanly nor with `TypeError`. -/
def shapeMismatch (a b : AttrValue) : Bool :=
  match a, b with
  | .num xs, .num ys => xs.length ≠ ys.length
  | _, _ => false

/-- The disagreement condition of the claim, written from its words: in
the numerically comparable regime some element of some image's value
violates the tolerance against the first image's value as reference `b`;
otherwise the set of all values has more than one element. -/
def specDisagreement (vals : List AttrValue) (rtol atol : ℚ) : Prop :=
  match vals with
  | [] => False
  | b :: rest =>
    if rest.all (fun v => numComparable v b) then
      ∃ v ∈ rest, ∃ ys xs, v = .num ys ∧ b = .num xs ∧
        ∃ q ∈ ys.zip xs, ¬ (|q.1 - q.2| ≤ atol + rtol * |q.2|)
    else 1 < vals.toFinset.card

/-- External `Image` interface: named geometric attributes and the
`INTENSITY` type tag. -/
structure Image where
  attr : String → AttrValue
  isIntensity : Bool

/-- A value stored in a `Subject`: an `Image` or scalar metadata (the
class docstring example stores `age=45`; metadata is modelled as an
integer scalar, which Python cannot index spatially). -/
inductive Value where
  | img (i : Image)
  | meta (n : ℤ)

/-- Whether a stored value is an `Image` (`isinstance(image, Image)`). -/
def Value.isImage : Value → Bool
  | .img _ => true
  | .meta _ => false

/-- Parameter mapping recorded with an applied transform. -/
abbrev Params := List (String × ℤ)

/-- The `Subject` aggregate: the ordered `dict` entries, the
`applied_transforms` history, and the names mirrored into `__dict__` by
`update_attributes` (needed by `remove_image`, which calls `delattr`). -/
structure Subject where
  entries : List (String × Value)
  appliedTransforms : List (String × Params)
  attrKeys : List String

/-- `Subject.get_images_dict(intensity_only, include, exclude)`. -/
def Subject.getImagesDict (s : Subject) (intensityOnly : Bool)
    (includeNames excludeNames : Option (List String)) :
    List (String × Image) :=
  s.entries.filterMap fun p =>
    match p.2 with
    | .img i =>
      if intensityOnly && !i.isIntensity then none
      else if (match includeNames with
               | some l => !l.contains p.1
               | none => false) then none
      else if (match excludeNames with
               | some l => l.contains p.1
               | none => false) then none
      else some (p.1, i)
    | .meta _ => none

/-- `Subject.get_images`. -/
def Subject.getImages (s : Subject) (intensityOnly : Bool)
    (includeNames excludeNames : Option (List String)) : List Image :=
  (s.getImagesDict intensityOnly includeNames excludeNames).map (·.2)

/-- `Subject.get_first_image`: `self.get_images(intensity_only=False)[0]`;
indexing an empty list raises, modelled by `Option`. -/
def Subject.getFirstImage (s : Subject) : Option Image :=
  (s.getImages false none none).head?

/-- The attribute values `check_consistent_attribute` iterates over:
`getattr(image, attribute)` for every image of
`get_images_dict(intensity_only=False)`, in insertion order. -/
def Subject.attrValues (s : Subject) (attrName : String) : List AttrValue :=
  (s.getImagesDict false none none).map fun p => p.2.attr attrName

/-- `Subject.check_consistent_attribute(attribute, rtol, atol)`.  A pure
inspection: it returns a result and leaves the subject untouched. -/
def Subject.checkConsistentAttribute (s : Subject) (attrName : String)
    (rtol atol : ℚ) : CheckResult :=
  checkValues (s.attrValues attrName) rtol atol

/-- `Subject.__init__` from a mapping: populate the dict, then
`_parse_images` raises `TypeError` when the subject holds no image, then
`update_attributes` mirrors the keys and the history starts empty. -/
def mkSubject (entries : List (String × Value)) : Except String Subject :=
  let s : Subject := ⟨entries, [], entries.map (·.1)⟩
  if (s.getImages false none none).isEmpty then
    .error "A subject without images cannot be created"
  else .ok s

/-- Python exception kinds relevant to the modelled code. -/
inductive PyError where
  | typeError
  | keyError
  | attributeError
  | runtimeError
deriving DecidableEq, Repr

/-- A registered `Transform` subclass, as found by
`get_subclasses(Transform)`: its class name, whether it is an
`IntensityTransform`, and whether instances expose an
`image_interpolation` field. -/
structure TransformClass where
  name : String
  isIntensity : Bool
  hasImageInterp : Bool
deriving DecidableEq, Repr

/-- A reconstructed transform instance: its class, the recorded
constructor arguments, and the `image_interpolation` override written
into the instance after construction (`none` when not overridden). -/
structure TransformInstance where
  cls : TransformClass
  args : Params
  interpOverride : Option String
deriving DecidableEq, Repr

/-- The `name_to_transform` mapping: look a recorded class name up among
all registered `Transform` subclasses.  `KeyError` when absent. -/
def lookupTransform (registry : List TransformClass) (n : String) :
    Option TransformClass :=
  registry.find? fun c => c.name == n

/-- The loop body of `Subject.get_applied_transforms`: instantiate each
recorded `(name, arguments)` pair by registry lookup (a missing name
raises `KeyError` carrying that name), then optionally drop intensity
transforms, then optionally override `image_interpolation` on transforms
that expose it (`parse_interpolation` modelled as the identity). -/
def reconstructTransforms (registry : List TransformClass)
    (ignoreIntensity : Bool) (imageInterpolation : Option String) :
    List (String × Params) → Except String (List TransformInstance)
  | [] => .ok []
  | (n, args) :: rest =>
    match lookupTransform registry n with
    | none => .error n
    | some cls =>
      if ignoreIntensity && cls.isIntensity then
        reconstructTransforms registry ignoreIntensity imageInterpolation rest
      else
        let interp : Option String :=
          if cls.hasImageInterp then imageInterpolation else none
        match reconstructTransforms registry ignoreIntensity
            imageInterpolation rest with
        | .ok l => .ok (⟨cls, args, interp⟩ :: l)
        | .error e => .error e

/-- `Subject.get_applied_transforms(ignore_intensity, image_interpolation)`. -/
def Subject.getAppliedTransforms (s : Subject)
    (registry : List TransformClass) (ignoreIntensity : Bool)
    (imageInterpolation : Option String) :
    Except String (List TransformInstance) :=
  reconstructTransforms registry ignoreIntensity imageInterpolation
    s.appliedTransforms

/-- `Subject.add_transform(transform, parameters_dict)`: append
`(transform.name, parameters_dict)` to `applied_transforms`. -/
def Subject.addTransform (s : Subject) (t : TransformInstance)
    (parametersDict : Params) : Subject :=
  ⟨s.entries, s.appliedTransforms ++ [(t.cls.name, parametersDict)],
    s.attrKeys⟩

/-- `Subject.clear_history`. -/
def Subject.clearHistory (s : Subject) : Subject :=
  ⟨s.entries, [], s.attrKeys⟩

/-- `Subject.apply_inverse_transform(**kwargs)`: apply the composed
inverse of the history (external `Compose.inverse`, abstracted as the
function `inverseTransform`) and clear the resulting subject's history. -/
def Subject.applyInverseTransform (s : Subject)
    (inverseTransform : Subject → Subject) : Subject :=
  (inverseTransform s).clearHistory

/-- `Subject.remove_image(image_name)`: `del self[image_name]` raises
`KeyError` when the key is absent, then `delattr(self, image_name)`
raises `AttributeError` when the mirrored attribute is absent. -/
def Subject.removeImage (s : Subject) (imageName : String) :
    Except PyError Subject :=
  if s.entries.any (fun p => p.1 == imageName) then
    if s.attrKeys.contains imageName then
      .ok ⟨s.entries.filter (fun p => p.1 != imageName),
        s.appliedTransforms,
        s.attrKeys.filter (fun k => k != imageName)⟩
    else .error .attributeError
  else .error .keyError

/-- A spatial index accepted by `Subject.__getitem__`: a slice, an
integer, or a tuple. -/
inductive SpatialIndex where
  | slice (lo hi : ℤ)
  | intAt (n : ℤ)
  | tupleAt (ixs : List ℤ)
deriving DecidableEq, Repr

/-- Indexing one stored dict value with a spatial index, as the loop
`copied[image_name] = image[item]` does to every entry: `Image` supports
spatial `__getitem__` (external, abstracted as `imgIdx`), while integer
metadata is not subscriptable and raises `TypeError`. -/
def valueGetItem (imgIdx : Image → SpatialIndex → Image) (v : Value)
    (ix : SpatialIndex) : Option Value :=
  match v with
  | .img i => some (.img (imgIdx i ix))
  | .meta _ => none

/-- `Subject.__getitem__` on a slice/int/tuple index: first
`check_consistent_spatial_shape` (tolerances default to `1e-6`; on
failure a `RuntimeError` is raised), then a deep copy whose every dict
entry is replaced by that entry indexed with the same index. -/
def Subject.getitemSpatial (s : Subject)
    (imgIdx : Image → SpatialIndex → Image) (ix : SpatialIndex) :
    Except PyError Subject :=
  match s.checkConsistentAttribute "spatial_shape"
      (1 / 1000000) (1 / 1000000) with
  | .ok =>
    match s.entries.mapM
        (fun p => (valueGetItem imgIdx p.2 ix).map fun v => (p.1, v)) with
    | some entries2 => .ok ⟨entries2, s.appliedTransforms, s.attrKeys⟩
    | none => .error .typeError
  | _ => .error .runtimeError

/-- `Subject.__getitem__` on a plain string key: ordinary mapping lookup,
no consistency check. -/
def Subject.getitemKey (s : Subject) (key : String) : Option Value :=
  (s.entries.find? fun p => p.1 == key).map (·.2)

/-- A 3D integer vector (spatial shape, patch size, anchor). -/
structure V3 where
  i : ℕ
  j : ℕ
  k : ℕ
deriving DecidableEq, Repr

/-- Modelled from the spec: `torch.randint(high, (1,))` (external torch
primitive) draws uniformly from the `high` integers `[0, high)`, and
raises when `high <= 0`.  The draw is modelled as reducing a raw value
`r` from the random stream modulo `high`; whenever `r` is uniform over
`[0, high)` the result is `r` itself, so uniformity statements are made
over that canonical range. -/
def randint (high : ℤ) (r : ℕ) : Option ℕ :=
  if 0 < high then some (r % high.toNat) else none

/-- `valid_range = subject.spatial_shape - self.patch_size`, a numpy
integer subtraction that may go negative. -/
def validRange (spatialShape patchSize : V3) : ℤ × ℤ × ℤ :=
  ((spatialShape.i : ℤ) - patchSize.i,
   (spatialShape.j : ℤ) - patchSize.j,
   (spatialShape.k : ℤ) - patchSize.k)

/-- One loop iteration's anchor:
`i, j, k = tuple(int(torch.randint(x + 1, (1,)).item()) for x in valid_range)`.
`none` when some `torch.randint` raises (patch larger than volume). -/
def sampleAnchor (vr : ℤ × ℤ × ℤ) (r : V3) : Option V3 :=
  match randint (vr.1 + 1) r.i, randint (vr.2.1 + 1) r.j,
      randint (vr.2.2 + 1) r.k with
  | some a, some b, some c => some ⟨a, b, c⟩
  | _, _, _ => none

/-- Python truthiness of `patches_left`, which is either the remaining
integer count or `True` (modelled as `none`) when `num_patches is None`. -/
def truthy : Option ℕ → Bool
  | none => true
  | some m => m != 0

/-- `patches_left -= 1`, executed only when `num_patches is not None`. -/
def decPatches : Option ℕ → Option ℕ
  | none => none
  | some m => some (m - 1)

/-- One step of the `_generate_patches` generator from state
`(patches_left, position in the random stream)`: while `patches_left` is
truthy, draw an anchor (the yielded patch is `extract_patch(subject,
index_ini)` at that anchor, delegated to the external sampler base) and
decrement; otherwise the generator is exhausted.  The inner `Option` is
`none` when the iteration raised inside `torch.randint`. -/
def genNext (vr : ℤ × ℤ × ℤ) (stream : ℕ → V3) (st : Option ℕ × ℕ) :
    Option (Option V3 × (Option ℕ × ℕ)) :=
  if truthy st.1 then
    some (sampleAnchor vr (stream st.2), (decPatches st.1, st.2 + 1))
  else none

/-- The anchor of the `m`-th element pulled from the generator started in
state `st` (0-based), or `none` when the generator is exhausted or raised
before producing it. -/
def genYield (vr : ℤ × ℤ × ℤ) (stream : ℕ → V3) :
    Option ℕ × ℕ → ℕ → Option V3
  | st, 0 =>
    match genNext vr stream st with
    | some (a, _) => a
    | none => none
  | st, m + 1 =>
    match genNext vr stream st with
    | some (some _, st2) => genYield vr stream st2 m
    | some (none, _) => none
    | none => none

/-- A numeric tensor as `mask()` sees it: a channel dimension followed by
flattened spatial dimensions. -/
structure Tensor where
  channels : ℕ
  voxels : ℕ
  val : ℕ → ℕ → ℚ

/-- A boolean mask tensor of the same layout. -/
structure BoolTensor where
  channels : ℕ
  voxels : ℕ
  val : ℕ → ℕ → Bool

/-- The module-level `mask(tensor, mask, outside_value)` function: clone,
compare channel counts; on mismatch `assert num_channels_mask == 1`
(failure modelled as `none`), warn once and expand the single mask
channel across all image channels; finally `array[~mask] = outside_value`.
The result carries the number of warnings emitted; `none` also covers the
shape errors `expand`/boolean indexing raise when spatial sizes differ. -/
def mask (tensor : Tensor) (maskT : BoolTensor) (outsideValue : ℚ) :
    Option (Tensor × ℕ) :=
  if tensor.channels = maskT.channels then
    if maskT.voxels = tensor.voxels then
      some (⟨tensor.channels, tensor.voxels,
        fun c v => if maskT.val c v then tensor.val c v else outsideValue⟩, 0)
    else none
  else if maskT.channels = 1 then
    if maskT.voxels = tensor.voxels then
      some (⟨tensor.channels, tensor.voxels,
        fun c v => if maskT.val 0 v then tensor.val c v else outsideValue⟩, 1)
    else none
  else none

/-! ### Helper lemmas -/

/-- With `intensity_only=False` and no include/exclude filters,
`get_images_dict` keeps exactly the `Image`-valued entries. -/
theorem getImagesDict_eq (s : Subject) :
    s.getImagesDict false none none =
      s.entries.filterMap fun p =>
        match p.2 with
        | Value.img i => some (p.1, i)
        | Value.meta _ => none := by
  unfold Subject.getImagesDict
  apply List.filterMap_congr
  intro p _
  obtain ⟨nm, v⟩ := p
  cases v <;> rfl

theorem filterImages_eq_nil_iff (l : List (String × Value)) :
    (l.filterMap fun p =>
        match p.2 with
        | Value.img i => some (p.1, i)
        | Value.meta _ => none) = []
      ↔ ∀ p ∈ l, p.2.isImage = false := by
  rw [List.filterMap_eq_nil_iff]
  constructor
  · intro h p hp
    have := h p hp
    obtain ⟨nm, v⟩ := p
    cases v
    · simp at this
    · rfl
  · intro h p hp
    have := h p hp
    obtain ⟨nm, v⟩ := p
    cases v
    · simp [Value.isImage] at this
    · rfl

/-- Demonstration image and subject used as concrete witnesses. -/
def demoImage : Image :=
  ⟨fun _ => AttrValue.num [4, 4, 4], true⟩

def demoImage2 : Image :=
  ⟨fun _ => AttrValue.num [5, 4, 4], true⟩

def demoEntries : List (String × Value) :=
  [("t1", Value.img demoImage)]

def demoSubject : Subject :=
  ⟨demoEntries, [], ["t1"]⟩

/-! ### Claim C5 -/

/-- Claim C5: constructing a `Subject` from a mapping with no `Image`
value raises a construction error immediately (no object is produced);
with at least one `Image` value construction succeeds, with the given
entries and an empty history. -/
theorem claim_c5 (entries : List (String × Value)) :
    ((∃ s, mkSubject entries = .ok s ∧ s.entries = entries ∧
        s.appliedTransforms = [])
      ↔ (∃ p ∈ entries, p.2.isImage = true))
    ∧ ((∀ p ∈ entries, p.2.isImage = false) →
        mkSubject entries = .error "A subject without images cannot be created") := by
  have hempty : ((Subject.mk entries [] (entries.map (·.1))).getImages
      false none none) = []
      ↔ ∀ p ∈ entries, p.2.isImage = false := by
    rw [Subject.getImages, getImagesDict_eq, List.map_eq_nil_iff]
    exact filterImages_eq_nil_iff entries
  constructor
  · constructor
    · rintro ⟨s, hs, -, -⟩
      by_contra hno
      push_neg at hno
      have h2 : ∀ p ∈ entries, p.2.isImage = false := by
        intro p hp
        cases h : p.2.isImage
        · rfl
        · exact absurd h (hno p hp)
      rw [mkSubject] at hs
      rw [if_pos (by simpa [List.isEmpty_iff] using hempty.mpr h2)] at hs
      exact Except.noConfusion hs
    · rintro ⟨p, hp, himg⟩
      refine ⟨⟨entries, [], entries.map (·.1)⟩, ?_, rfl, rfl⟩
      rw [mkSubject, if_neg ?_]
      intro hemp
      rw [List.isEmpty_iff] at hemp
      exact absurd himg (by simp [hempty.mp hemp p hp])
  · intro h
    rw [mkSubject, if_pos (by simpa [List.isEmpty_iff] using hempty.mpr h)]

/-- Witness for C5: the empty mapping fails, a one-image mapping succeeds. -/
theorem claim_c5_witness :
    mkSubject ([] : List (String × Value))
        = .error "A subject without images cannot be created"
    ∧ ∃ s, mkSubject demoEntries = .ok s ∧ s.entries = demoEntries ∧
        s.appliedTransforms = [] :=
  ⟨(claim_c5 []).2 (by simp),
    (claim_c5 demoEntries).1.mpr
      ⟨("t1", Value.img demoImage), by simp [demoEntries], rfl⟩⟩

/-! ### Claim C8 -/

/-- Claim C8: the subject returned by `apply_inverse_transform` has an
empty applied-transforms history, whatever the composed inverse did to
the copy it was applied to; the inverse application itself is never left
recorded.  The entries are exactly those produced by the inverse
application. -/
theorem claim_c8 (s : Subject) (inverseTransform : Subject → Subject) :
    (s.applyInverseTransform inverseTransform).appliedTransforms = []
    ∧ (s.applyInverseTransform inverseTransform).entries
        = (inverseTransform s).entries
    ∧ (s.applyInverseTransform inverseTransform).attrKeys
        = (inverseTransform s).attrKeys :=
  ⟨rfl, rfl, rfl⟩

/-! ### Claim C9 -/

/-- Claim C9: `add_transform` appends exactly `(transform.name,
parameters)` at the end of the history and changes nothing else, so after
applying T1 then T2 to a subject with empty history the history is
`[(T1.name, p1), (T2.name, p2)]` in that order. -/
theorem claim_c9 (s : Subject) (t1 t2 : TransformInstance) (p1 p2 : Params)
    (h : s.appliedTransforms = []) :
    ((s.addTransform t1 p1).addTransform t2 p2).appliedTransforms
        = [(t1.cls.name, p1), (t2.cls.name, p2)]
    ∧ ∀ (s2 : Subject) (t : TransformInstance) (p : Params),
        (s2.addTransform t p).appliedTransforms
            = s2.appliedTransforms ++ [(t.cls.name, p)]
        ∧ (s2.addTransform t p).entries = s2.entries
        ∧ (s2.addTransform t p).attrKeys = s2.attrKeys := by
  refine ⟨?_, fun s2 t p => ⟨rfl, rfl, rfl⟩⟩
  simp [Subject.addTransform, h]

def demoTransform1 : TransformInstance :=
  ⟨⟨"RandomFlip", false, false⟩, [("axes", 0)], none⟩

def demoTransform2 : TransformInstance :=
  ⟨⟨"Resample", false, true⟩, [("target", 1)], none⟩

/-- Witness for C9 at a concrete subject with empty history. -/
theorem claim_c9_witness :
    ((demoSubject.addTransform demoTransform1 [("axes", 0)]).addTransform
        demoTransform2 [("target", 1)]).appliedTransforms
        = [("RandomFlip", [("axes", 0)]), ("Resample", [("target", 1)])]
    ∧ ∀ (s2 : Subject) (t : TransformInstance) (p : Params),
        (s2.addTransform t p).appliedTransforms
            = s2.appliedTransforms ++ [(t.cls.name, p)]
        ∧ (s2.addTransform t p).entries = s2.entries
        ∧ (s2.addTransform t p).attrKeys = s2.attrKeys :=
  claim_c9 demoSubject demoTransform1 demoTransform2
    [("axes", 0)] [("target", 1)] rfl

/-! ### Claim C7 -/

theorem reconstructTransforms_error_of_unknown (registry : List TransformClass)
    (ignoreIntensity : Bool) (imageInterpolation : Option String)
    (hist : List (String × Params)) (n : String) (args : Params)
    (hmem : (n, args) ∈ hist)
    (hlookup : lookupTransform registry n = none) :
    ∃ e, reconstructTransforms registry ignoreIntensity imageInterpolation
        hist = .error e := by
  induction hist with
  | nil => simp at hmem
  | cons hd rest ih =>
    obtain ⟨m, a⟩ := hd
    rcases List.mem_cons.mp hmem with heq | hmem2
    · obtain ⟨rfl, rfl⟩ := Prod.mk.injEq .. ▸ heq
      refine ⟨n, ?_⟩
      simp [reconstructTransforms, hlookup]
    · obtain ⟨e, he⟩ := ih hmem2
      cases hcl : lookupTransform registry m with
      | none => exact ⟨m, by simp [reconstructTransforms, hcl]⟩
      | some cls =>
        by_cases hskip : (ignoreIntensity && cls.isIntensity) = true
        · exact ⟨e, by simp [reconstructTransforms, hcl, hskip, he]⟩
        · refine ⟨e, ?_⟩
          simp only [reconstructTransforms, hcl]
          rw [if_neg hskip, he]

/-- Claim C7: if the applied-transform history contains an entry whose
recorded name is not a registered `Transform` variant, then
`get_applied_transforms` fails with a hard error (a `KeyError` from the
registry lookup); the unknown entry is never silently skipped, not even
when `ignore_intensity` filtering is requested, because the lookup
happens before the filter. -/
theorem claim_c7 (s : Subject) (registry : List TransformClass)
    (ignoreIntensity : Bool) (imageInterpolation : Option String)
    (n : String) (args : Params)
    (hmem : (n, args) ∈ s.appliedTransforms)
    (hlookup : lookupTransform registry n = none) :
    ∃ e, s.getAppliedTransforms registry ignoreIntensity
        imageInterpolation = .error e :=
  reconstructTransforms_error_of_unknown registry ignoreIntensity
    imageInterpolation s.appliedTransforms n args hmem hlookup

def demoHistSubject : Subject :=
  ⟨demoEntries, [("MysteryTransform", [])], ["t1"]⟩

/-- Witness for C7: a one-entry history whose name an empty registry does
not know. -/
theorem claim_c7_witness :
    ∃ e, demoHistSubject.getAppliedTransforms
        [⟨"RandomFlip", false, false⟩] true none = .error e :=
  claim_c7 demoHistSubject [⟨"RandomFlip", false, false⟩] true none
    "MysteryTransform" [] (by simp [demoHistSubject]) rfl

/-! ### Claim C10 -/

/-- Claim C10: the at-least-one-image invariant is enforced only at
construction.  On a constructed subject whose only image entry is
`(n, i)`, `remove_image n` succeeds (no image-count check), leaving a
subject with zero images, on which `get_first_image` fails (indexing an
empty list). -/
theorem claim_c10 (entries : List (String × Value)) (s : Subject)
    (n : String) (i : Image)
    (hmk : mkSubject entries = .ok s)
    (himg : s.getImagesDict false none none = [(n, i)]) :
    ∃ s2, s.removeImage n = .ok s2
      ∧ s2.getImages false none none = []
      ∧ s2.getFirstImage = none := by
  have hs : s = ⟨entries, [], entries.map (·.1)⟩ := by
    rw [mkSubject] at hmk
    split at hmk
    · exact Except.noConfusion hmk
    · exact (Except.ok.injEq .. ▸ hmk).symm
  have hmem : (n, Value.img i) ∈ entries := by
    have h1 : (n, i) ∈ s.getImagesDict false none none := by
      rw [himg]; exact List.mem_singleton.mpr rfl
    rw [getImagesDict_eq] at h1
    obtain ⟨p, hp, hfp⟩ := List.mem_filterMap.mp h1
    obtain ⟨nm, v⟩ := p
    cases v with
    | img j =>
      simp only [Option.some.injEq, Prod.mk.injEq] at hfp
      obtain ⟨rfl, rfl⟩ := hfp
      rw [hs] at hp
      exact hp
    | meta _ => exact Option.noConfusion hfp
  have hkey : s.entries.any (fun p => p.1 == n) = true := by
    rw [List.any_eq_true]
    exact ⟨(n, Value.img i), hs ▸ hmem, by simp⟩
  have hattr : s.attrKeys.contains n = true := by
    rw [hs]
    have : n ∈ entries.map (·.1) :=
      List.mem_map.mpr ⟨(n, Value.img i), hmem, rfl⟩
    simpa using this
  refine ⟨⟨s.entries.filter (fun p => p.1 != n), s.appliedTransforms,
    s.attrKeys.filter (fun k => k != n)⟩, ?_, ?_, ?_⟩
  · rw [Subject.removeImage, if_pos hkey, if_pos hattr]
  · rw [Subject.getImages, getImagesDict_eq, List.map_eq_nil_iff,
      filterImages_eq_nil_iff]
    intro p hp
    have hpf := List.mem_filter.mp
      (show p ∈ s.entries.filter (fun q => q.1 != n) from hp)
    cases hv : p.2 with
    | img j =>
      exfalso
      have hdict : (p.1, j) ∈ s.getImagesDict false none none := by
        rw [getImagesDict_eq]
        exact List.mem_filterMap.mpr ⟨p, hpf.1, by rw [hv]⟩
      rw [himg] at hdict
      have : p.1 = n := (Prod.mk.injEq .. ▸ List.mem_singleton.mp hdict).1
      have h4 := hpf.2
      simp [this] at h4
    | meta _ => simp [Value.isImage]
  · rw [Subject.getFirstImage, Subject.getImages, getImagesDict_eq]
    have : (s.entries.filter (fun p => p.1 != n)).filterMap
        (fun p => match p.2 with
          | Value.img i => some (p.1, i)
          | Value.meta _ => none) = [] := by
      rw [List.filterMap_eq_nil_iff]
      intro p hp
      have hpf := List.mem_filter.mp
        (show p ∈ s.entries.filter (fun q => q.1 != n) from hp)
      cases hv : p.2 with
      | img j =>
        exfalso
        have h3 : (p.1, j) ∈ s.getImagesDict false none none := by
          rw [getImagesDict_eq]
          exact List.mem_filterMap.mpr ⟨p, hpf.1, by rw [hv]⟩
        rw [himg] at h3
        have : p.1 = n := (Prod.mk.injEq .. ▸ List.mem_singleton.mp h3).1
        have h4 := hpf.2
        simp [this] at h4
      | meta _ => rfl
    rw [this]
    rfl

/-- Witness for C10 at a concrete one-image subject. -/
theorem claim_c10_witness :
    ∃ s2, demoSubject.removeImage "t1" = .ok s2
      ∧ s2.getImages false none none = []
      ∧ s2.getFirstImage = none :=
  claim_c10 demoEntries demoSubject "t1" demoImage rfl rfl

/-! ### Claim C6 -/

/-- Claim C6: with an `N > 1` channel image and a 1-channel mask of
matching spatial size, `mask()` broadcasts the mask channel across the
image channels and emits exactly one warning; with matching channel
counts it emits none.  In the result, every voxel where the mask is false
equals `outside_value` exactly and every voxel where the mask is true
equals the corresponding input voxel unchanged. -/
theorem claim_c6 (tensor : Tensor) (maskT : BoolTensor) (outsideValue : ℚ)
    (hvox : maskT.voxels = tensor.voxels) :
    (1 < tensor.channels → maskT.channels = 1 →
      ∃ out, mask tensor maskT outsideValue = some (out, 1)
        ∧ out.channels = tensor.channels ∧ out.voxels = tensor.voxels
        ∧ ∀ c v, c < tensor.channels → v < tensor.voxels →
            out.val c v
              = if maskT.val 0 v then tensor.val c v else outsideValue)
    ∧ (maskT.channels = tensor.channels →
      ∃ out, mask tensor maskT outsideValue = some (out, 0)
        ∧ out.channels = tensor.channels ∧ out.voxels = tensor.voxels
        ∧ ∀ c v, c < tensor.channels → v < tensor.voxels →
            out.val c v
              = if maskT.val c v then tensor.val c v else outsideValue) := by
  constructor
  · intro hN h1
    have hne : ¬ tensor.channels = maskT.channels := by omega
    refine ⟨⟨tensor.channels, tensor.voxels,
      fun c v => if maskT.val 0 v then tensor.val c v else outsideValue⟩,
      ?_, rfl, rfl, fun c v _ _ => rfl⟩
    rw [mask, if_neg hne, if_pos h1, if_pos hvox]
  · intro heq
    refine ⟨⟨tensor.channels, tensor.voxels,
      fun c v => if maskT.val c v then tensor.val c v else outsideValue⟩,
      ?_, rfl, rfl, fun c v _ _ => rfl⟩
    rw [mask, if_pos heq.symm, if_pos hvox]

def demoTensor : Tensor :=
  ⟨2, 3, fun c v => (c : ℚ) + v⟩

def demoMask : BoolTensor :=
  ⟨1, 3, fun _ v => decide (v = 0)⟩

def demoMask2 : BoolTensor :=
  ⟨2, 3, fun c v => decide (c = 0 ∧ v = 0)⟩

/-- Witness for C6 at a concrete 2-channel image and 1-channel mask. -/
theorem claim_c6_witness :
    (1 < demoTensor.channels → demoMask.channels = 1 →
      ∃ out, mask demoTensor demoMask 7 = some (out, 1)
        ∧ out.channels = demoTensor.channels
        ∧ out.voxels = demoTensor.voxels
        ∧ ∀ c v, c < demoTensor.channels → v < demoTensor.voxels →
            out.val c v
              = if demoMask.val 0 v then demoTensor.val c v else 7)
    ∧ (demoMask.channels = demoTensor.channels →
      ∃ out, mask demoTensor demoMask 7 = some (out, 0)
        ∧ out.channels = demoTensor.channels
        ∧ out.voxels = demoTensor.voxels
        ∧ ∀ c v, c < demoTensor.channels → v < demoTensor.voxels →
            out.val c v
              = if demoMask.val c v then demoTensor.val c v else 7) :=
  claim_c6 demoTensor demoMask 7 rfl

/-! ### Claim C4 -/

/-- Claim C4 fails on the code: `Subject.__getitem__` applies the spatial
index to every dict value, metadata included, instead of only to the
images.  On the docstring-style subject with an image `t1` and integer
metadata `age = 45`, indexing with the integer `0` passes the (single
image) spatial-shape consistency check and then raises `TypeError`
because the integer metadata is not subscriptable — whatever the external
`Image.__getitem__` behaviour is. -/
theorem claim_c4_eval (imgIdx : Image → SpatialIndex → Image) (i : Image) :
    Subject.getitemSpatial
        ⟨[("t1", Value.img i), ("age", Value.meta 45)], [], ["t1", "age"]⟩
        imgIdx (SpatialIndex.intAt 0)
      = .error .typeError := rfl

/-! ### Claims C2 and C3: the uniform sampler -/

theorem validRange_fst (s p : V3) : (validRange s p).1 = (s.i : ℤ) - p.i := rfl

theorem sampleAnchor_eq (s p : V3) (hi : p.i ≤ s.i) (hj : p.j ≤ s.j)
    (hk : p.k ≤ s.k) (r : V3) :
    sampleAnchor (validRange s p) r =
      some ⟨r.i % (s.i - p.i + 1), r.j % (s.j - p.j + 1),
        r.k % (s.k - p.k + 1)⟩ := by
  have h1 : (0 : ℤ) < (validRange s p).1 + 1 := by
    simp only [validRange]; omega
  have h2 : (0 : ℤ) < (validRange s p).2.1 + 1 := by
    simp only [validRange]; omega
  have h3 : (0 : ℤ) < (validRange s p).2.2 + 1 := by
    simp only [validRange]; omega
  have e1 : ((validRange s p).1 + 1).toNat = s.i - p.i + 1 := by
    simp only [validRange]; omega
  have e2 : ((validRange s p).2.1 + 1).toNat = s.j - p.j + 1 := by
    simp only [validRange]; omega
  have e3 : ((validRange s p).2.2 + 1).toNat = s.k - p.k + 1 := by
    simp only [validRange]; omega
  unfold sampleAnchor randint
  rw [if_pos h1, if_pos h2, if_pos h3, e1, e2, e3]

/-- Claim C3: with the sampler precondition `patch_size ≤ spatial_shape`
per axis, the generator started with a finite `num_patches` yields
exactly that many patches and then terminates — the `m`-th pull (0-based)
succeeds iff `m < num_patches` — while with `num_patches = None` every
pull succeeds: the stream is infinite. -/
theorem claim_c3 (s p : V3) (stream : ℕ → V3)
    (hi : p.i ≤ s.i) (hj : p.j ≤ s.j) (hk : p.k ≤ s.k) :
    (∀ numPatches pos m : ℕ,
        (genYield (validRange s p) stream (some numPatches, pos) m).isSome
          ↔ m < numPatches)
    ∧ ∀ pos m : ℕ,
        (genYield (validRange s p) stream (none, pos) m).isSome := by
  have ha : ∀ pos : ℕ, (sampleAnchor (validRange s p) (stream pos)).isSome := by
    intro pos
    rw [sampleAnchor_eq s p hi hj hk]
    rfl
  constructor
  · intro numPatches pos m
    induction m generalizing numPatches pos with
    | zero =>
      cases numPatches with
      | zero => simp [genYield, genNext, truthy]
      | succ numP =>
        simp only [genYield, genNext, truthy]
        simpa using ha pos
    | succ m ih =>
      cases numPatches with
      | zero => simp [genYield, genNext, truthy]
      | succ numP =>
        have hsome := ha pos
        simp only [genYield, genNext, truthy]
        rw [if_pos (by simp)]
        obtain ⟨a, hae⟩ := Option.isSome_iff_exists.mp hsome
        rw [hae]
        simp only [decPatches, Nat.add_sub_cancel]
        rw [ih numP (pos + 1)]
        omega
  · intro pos m
    induction m generalizing pos with
    | zero =>
      simp only [genYield, genNext, truthy]
      simpa using ha pos
    | succ m ih =>
      have hsome := ha pos
      simp only [genYield, genNext, truthy, if_true]
      obtain ⟨a, hae⟩ := Option.isSome_iff_exists.mp hsome
      rw [hae]
      simp only [decPatches]
      exact ih (pos + 1)

/-- Witness for C3 on a 4×4×4 volume with 2×2×2 patches. -/
theorem claim_c3_witness :
    (∀ numPatches pos m : ℕ,
        (genYield (validRange ⟨4, 4, 4⟩ ⟨2, 2, 2⟩) (fun n => ⟨n, n, n⟩)
            (some numPatches, pos) m).isSome
          ↔ m < numPatches)
    ∧ ∀ pos m : ℕ,
        (genYield (validRange ⟨4, 4, 4⟩ ⟨2, 2, 2⟩) (fun n => ⟨n, n, n⟩)
            (none, pos) m).isSome :=
  claim_c3 ⟨4, 4, 4⟩ ⟨2, 2, 2⟩ (fun n => ⟨n, n, n⟩)
    (by decide) (by decide) (by decide)

theorem randint_eq_of_le (a b : ℕ) (h : b ≤ a) (r : ℕ) :
    randint ((a : ℤ) - b + 1) r = some (r % (a - b + 1)) := by
  unfold randint
  rw [if_pos (by omega)]
  have : ((a : ℤ) - b + 1).toNat = a - b + 1 := by omega
  rw [this]

theorem filter_randint_card (a b : ℕ) (h : b ≤ a) (v : ℕ) (hv : v ≤ a - b) :
    ((Finset.range (a - b + 1)).filter
      (fun r => randint ((a : ℤ) - b + 1) r = some v)).card = 1 := by
  have hcong : ∀ r ∈ Finset.range (a - b + 1),
      (randint ((a : ℤ) - b + 1) r = some v ↔ r = v) := by
    intro r hr
    rw [Finset.mem_range] at hr
    rw [randint_eq_of_le a b h, Nat.mod_eq_of_lt hr]
    simp
  rw [Finset.filter_congr hcong, Finset.filter_eq',
    if_pos (Finset.mem_range.mpr (by omega)), Finset.card_singleton]

/-- Claim C2: with `patch_size ≤ spatial_shape` per axis, (1) every
anchor the generator yields lies, per axis, in
`[0, spatial_extent − patch_size]` inclusive, so the patch box lies fully
inside the volume; (2) per axis the anchor is produced by one
`torch.randint(valid_extent + 1)` draw, and over the canonical uniform
range of that draw each of the `valid_extent + 1` positions is hit by
exactly one raw value; (3) jointly, each valid 3D anchor is hit by
exactly one triple of raw values over the product of the three canonical
ranges — the three axis draws are independent, so the joint distribution
is uniform over the grid of valid origins. -/
theorem claim_c2 (s p : V3) (stream : ℕ → V3)
    (hi : p.i ≤ s.i) (hj : p.j ≤ s.j) (hk : p.k ≤ s.k) :
    (∀ (st : Option ℕ × ℕ) (m : ℕ) (a : V3),
        genYield (validRange s p) stream st m = some a →
          a.i ≤ s.i - p.i ∧ a.j ≤ s.j - p.j ∧ a.k ≤ s.k - p.k)
    ∧ (∀ v : ℕ, v ≤ s.i - p.i →
        ((Finset.range (s.i - p.i + 1)).filter
          (fun r => randint ((validRange s p).1 + 1) r = some v)).card = 1)
    ∧ (∀ v : ℕ, v ≤ s.j - p.j →
        ((Finset.range (s.j - p.j + 1)).filter
          (fun r => randint ((validRange s p).2.1 + 1) r = some v)).card = 1)
    ∧ (∀ v : ℕ, v ≤ s.k - p.k →
        ((Finset.range (s.k - p.k + 1)).filter
          (fun r => randint ((validRange s p).2.2 + 1) r = some v)).card = 1)
    ∧ (∀ a : V3, a.i ≤ s.i - p.i → a.j ≤ s.j - p.j → a.k ≤ s.k - p.k →
        (((Finset.range (s.i - p.i + 1)) ×ˢ (Finset.range (s.j - p.j + 1)) ×ˢ
            (Finset.range (s.k - p.k + 1))).filter
          (fun r => sampleAnchor (validRange s p) ⟨r.1, r.2.1, r.2.2⟩
            = some a)).card = 1) := by
  refine ⟨?_, ?_, ?_, ?_, ?_⟩
  · intro st m
    induction m generalizing st with
    | zero =>
      intro a ha
      simp only [genYield, genNext] at ha
      by_cases ht : truthy st.1 = true
      · rw [if_pos ht] at ha
        rw [sampleAnchor_eq s p hi hj hk] at ha
        obtain rfl := (Option.some.injEq .. ▸ ha).symm
        refine ⟨?_, ?_, ?_⟩ <;>
          exact Nat.lt_succ_iff.mp (Nat.mod_lt _ (Nat.succ_pos _))
      · rw [if_neg ht] at ha
        exact Option.noConfusion ha
    | succ m ih =>
      intro a ha
      simp only [genYield, genNext] at ha
      by_cases ht : truthy st.1 = true
      · rw [if_pos ht, sampleAnchor_eq s p hi hj hk] at ha
        exact ih _ a ha
      · rw [if_neg ht] at ha
        exact Option.noConfusion ha
  · exact fun v hv => filter_randint_card s.i p.i hi v hv
  · exact fun v hv => filter_randint_card s.j p.j hj v hv
  · exact fun v hv => filter_randint_card s.k p.k hk v hv
  · intro a h1 h2 h3
    obtain ⟨a1, a2, a3⟩ := a
    simp only at h1 h2 h3
    have hset : ((Finset.range (s.i - p.i + 1)) ×ˢ
        (Finset.range (s.j - p.j + 1)) ×ˢ
        (Finset.range (s.k - p.k + 1))).filter
          (fun r => sampleAnchor (validRange s p) ⟨r.1, r.2.1, r.2.2⟩
            = some ⟨a1, a2, a3⟩)
        = {(a1, a2, a3)} := by
      ext r
      obtain ⟨r1, r2, r3⟩ := r
      rw [Finset.mem_filter, sampleAnchor_eq s p hi hj hk]
      simp only [Finset.mem_product, Finset.mem_range, Finset.mem_singleton,
        Option.some.injEq, V3.mk.injEq, Prod.mk.injEq]
      constructor
      · rintro ⟨⟨hb1, hb2, hb3⟩, he1, he2, he3⟩
        rw [Nat.mod_eq_of_lt hb1] at he1
        rw [Nat.mod_eq_of_lt hb2] at he2
        rw [Nat.mod_eq_of_lt hb3] at he3
        exact ⟨he1, he2, he3⟩
      · rintro ⟨rfl, rfl, rfl⟩
        refine ⟨⟨by omega, by omega, by omega⟩, ?_, ?_, ?_⟩ <;>
          rw [Nat.mod_eq_of_lt (by omega)]
    rw [hset, Finset.card_singleton]

/-- Witness for C2 on a 4×4×4 volume with 2×2×2 patches. -/
theorem claim_c2_witness :
    (∀ (st : Option ℕ × ℕ) (m : ℕ) (a : V3),
        genYield (validRange ⟨4, 4, 4⟩ ⟨2, 2, 2⟩) (fun n => ⟨n, n, n⟩) st m
            = some a →
          a.i ≤ 4 - 2 ∧ a.j ≤ 4 - 2 ∧ a.k ≤ 4 - 2)
    ∧ (∀ v : ℕ, v ≤ 4 - 2 →
        ((Finset.range (4 - 2 + 1)).filter
          (fun r => randint ((validRange ⟨4, 4, 4⟩ ⟨2, 2, 2⟩).1 + 1) r
            = some v)).card = 1)
    ∧ (∀ v : ℕ, v ≤ 4 - 2 →
        ((Finset.range (4 - 2 + 1)).filter
          (fun r => randint ((validRange ⟨4, 4, 4⟩ ⟨2, 2, 2⟩).2.1 + 1) r
            = some v)).card = 1)
    ∧ (∀ v : ℕ, v ≤ 4 - 2 →
        ((Finset.range (4 - 2 + 1)).filter
          (fun r => randint ((validRange ⟨4, 4, 4⟩ ⟨2, 2, 2⟩).2.2 + 1) r
            = some v)).card = 1)
    ∧ (∀ a : V3, a.i ≤ 4 - 2 → a.j ≤ 4 - 2 → a.k ≤ 4 - 2 →
        (((Finset.range (4 - 2 + 1)) ×ˢ (Finset.range (4 - 2 + 1)) ×ˢ
            (Finset.range (4 - 2 + 1))).filter
          (fun r => sampleAnchor (validRange ⟨4, 4, 4⟩ ⟨2, 2, 2⟩)
              ⟨r.1, r.2.1, r.2.2⟩
            = some a)).card = 1) :=
  claim_c2 ⟨4, 4, 4⟩ ⟨2, 2, 2⟩ (fun n => ⟨n, n, n⟩)
    (by decide) (by decide) (by decide)

/-! ### Claim C1: the consistency check -/

theorem allclose_of_comparable (v b : AttrValue) (rtol atol : ℚ)
    (h : numComparable v b = true) :
    ∃ bl, allclose v b rtol atol = .ok bl := by
  cases v with
  | num ys =>
    cases b with
    | num xs =>
      simp only [numComparable, decide_eq_true_eq] at h
      exact ⟨_, by rw [allclose, if_pos h]⟩
    | str t => simp [numComparable] at h
  | str t => cases b <;> simp [numComparable] at h

theorem allclose_typeError_of_not_comparable (v b : AttrValue) (rtol atol : ℚ)
    (h : numComparable v b = false) (h2 : shapeMismatch v b = false) :
    allclose v b rtol atol = .typeError := by
  cases v with
  | num ys =>
    cases b with
    | num xs =>
      simp only [numComparable, decide_eq_true_eq, decide_eq_false_iff_not]
        at h
      simp [shapeMismatch, h] at h2
    | str t => rfl
  | str t => cases b <;> rfl

theorem allclose_ok_shape (v b : AttrValue) (rtol atol : ℚ) (bl : Bool)
    (h : allclose v b rtol atol = .ok bl) :
    ∃ ys xs, v = .num ys ∧ b = .num xs ∧ ys.length = xs.length ∧
      bl = (ys.zip xs).all fun q =>
        decide (|q.1 - q.2| ≤ atol + rtol * |q.2|) := by
  cases v with
  | num ys =>
    cases b with
    | num xs =>
      rw [allclose] at h
      split at h
      · exact ⟨ys, xs, rfl, rfl, by assumption,
          (CmpOutcome.ok.injEq .. ▸ h).symm⟩
      · exact CmpOutcome.noConfusion h
    | str t => exact CmpOutcome.noConfusion h
  | str t => exact CmpOutcome.noConfusion h

theorem allclose_valueError_shape (v b : AttrValue) (rtol atol : ℚ)
    (h : allclose v b rtol atol = .valueError) :
    shapeMismatch v b = true := by
  cases v with
  | num ys =>
    cases b with
    | num xs =>
      rw [allclose] at h
      split at h
      · exact CmpOutcome.noConfusion h
      · simpa [shapeMismatch] using (by assumption : ¬ ys.length = xs.length)
    | str t => exact CmpOutcome.noConfusion h
  | str t => cases b <;> exact CmpOutcome.noConfusion h

theorem checkLoop_passed_iff (b : AttrValue) (rtol atol : ℚ)
    (rest : List AttrValue) :
    checkLoop b rtol atol rest = .passed ↔
      ∀ v ∈ rest, allclose v b rtol atol = .ok true := by
  induction rest with
  | nil => simp [checkLoop]
  | cons v rest ih =>
    simp only [checkLoop]
    cases h : allclose v b rtol atol with
    | ok bl =>
      cases bl with
      | true => simp [ih, h]
      | false =>
        simp only [List.mem_cons]
        constructor
        · intro hc; exact LoopOutcome.noConfusion hc
        · intro hall
          have := hall v (Or.inl rfl)
          rw [h] at this
          exact absurd (CmpOutcome.ok.injEq .. ▸ this) (by simp)
    | typeError =>
      simp only [List.mem_cons]
      constructor
      · intro hc; exact LoopOutcome.noConfusion hc
      · intro hall
        have := hall v (Or.inl rfl)
        rw [h] at this
        exact CmpOutcome.noConfusion this
    | valueError =>
      simp only [List.mem_cons]
      constructor
      · intro hc; exact LoopOutcome.noConfusion hc
      · intro hall
        have := hall v (Or.inl rfl)
        rw [h] at this
        exact CmpOutcome.noConfusion this

theorem checkLoop_failedClose_mem (b : AttrValue) (rtol atol : ℚ)
    (rest : List AttrValue)
    (h : checkLoop b rtol atol rest = .failedClose) :
    ∃ v ∈ rest, allclose v b rtol atol = .ok false := by
  induction rest with
  | nil => exact LoopOutcome.noConfusion h
  | cons v rest ih =>
    rw [checkLoop] at h
    cases hc : allclose v b rtol atol with
    | ok bl =>
      cases bl with
      | true =>
        rw [hc] at h
        obtain ⟨w, hw, hw2⟩ := ih h
        exact ⟨w, List.mem_cons_of_mem v hw, hw2⟩
      | false => exact ⟨v, List.mem_cons_self v rest, hc⟩
    | typeError => rw [hc] at h; exact LoopOutcome.noConfusion h
    | valueError => rw [hc] at h; exact LoopOutcome.noConfusion h

theorem checkLoop_typeErr_mem (b : AttrValue) (rtol atol : ℚ)
    (rest : List AttrValue)
    (h : checkLoop b rtol atol rest = .typeErr) :
    ∃ v ∈ rest, allclose v b rtol atol = .typeError := by
  induction rest with
  | nil => exact LoopOutcome.noConfusion h
  | cons v rest ih =>
    rw [checkLoop] at h
    cases hc : allclose v b rtol atol with
    | ok bl =>
      cases bl with
      | true =>
        rw [hc] at h
        obtain ⟨w, hw, hw2⟩ := ih h
        exact ⟨w, List.mem_cons_of_mem v hw, hw2⟩
      | false => rw [hc] at h; exact LoopOutcome.noConfusion h
    | typeError => exact ⟨v, List.mem_cons_self v rest, hc⟩
    | valueError => rw [hc] at h; exact LoopOutcome.noConfusion h

theorem checkLoop_valueErr_mem (b : AttrValue) (rtol atol : ℚ)
    (rest : List AttrValue)
    (h : checkLoop b rtol atol rest = .valueErr) :
    ∃ v ∈ rest, allclose v b rtol atol = .valueError := by
  induction rest with
  | nil => exact LoopOutcome.noConfusion h
  | cons v rest ih =>
    rw [checkLoop] at h
    cases hc : allclose v b rtol atol with
    | ok bl =>
      cases bl with
      | true =>
        rw [hc] at h
        obtain ⟨w, hw, hw2⟩ := ih h
        exact ⟨w, List.mem_cons_of_mem v hw, hw2⟩
      | false => rw [hc] at h; exact LoopOutcome.noConfusion h
    | typeError => rw [hc] at h; exact LoopOutcome.noConfusion h
    | valueError => exact ⟨v, List.mem_cons_self v rest, hc⟩

theorem checkValues_cons (b : AttrValue) (rest : List AttrValue)
    (rtol atol : ℚ) :
    checkValues (b :: rest) rtol atol =
      match checkLoop b rtol atol rest with
      | .passed => .ok
      | .failedClose => .consistencyError
      | .valueErr => .comparisonError
      | .typeErr =>
        if 1 < (b :: rest).toFinset.card then .consistencyError
        else .ok := rfl

theorem specDisagreement_cons (b : AttrValue) (rest : List AttrValue)
    (rtol atol : ℚ) :
    specDisagreement (b :: rest) rtol atol =
      if rest.all (fun v => numComparable v b) then
        ∃ v ∈ rest, ∃ ys xs, v = .num ys ∧ b = .num xs ∧
          ∃ q ∈ ys.zip xs, ¬ (|q.1 - q.2| ≤ atol + rtol * |q.2|)
      else 1 < (b :: rest).toFinset.card := rfl

theorem checkValues_spec (vals : List AttrValue) (rtol atol : ℚ)
    (hcompat : ∀ v ∈ vals, ∀ w ∈ vals, shapeMismatch v w = false) :
    (checkValues vals rtol atol = .consistencyError ↔
      specDisagreement vals rtol atol)
    ∧ checkValues vals rtol atol ≠ .comparisonError := by
  cases vals with
  | nil =>
    constructor
    · constructor
      · intro h; exact CheckResult.noConfusion h
      · intro h; exact h.elim
    · intro h; exact CheckResult.noConfusion h
  | cons b rest =>
    have hcompat2 : ∀ v ∈ rest, shapeMismatch v b = false := fun v hv =>
      hcompat v (List.mem_cons_of_mem b hv) b (List.mem_cons_self b rest)
    have hnv : checkLoop b rtol atol rest ≠ .valueErr := by
      intro h
      obtain ⟨v, hv, hve⟩ := checkLoop_valueErr_mem b rtol atol rest h
      have := allclose_valueError_shape v b rtol atol hve
      rw [hcompat2 v hv] at this
      exact Bool.noConfusion this
    by_cases hall : rest.all (fun v => numComparable v b) = true
    · -- numerically comparable regime
      have hall2 := List.all_eq_true.mp hall
      have hnt : checkLoop b rtol atol rest ≠ .typeErr := by
        intro h
        obtain ⟨v, hv, hve⟩ := checkLoop_typeErr_mem b rtol atol rest h
        obtain ⟨bl, hbl⟩ :=
          allclose_of_comparable v b rtol atol (hall2 v hv)
        rw [hbl] at hve
        exact CmpOutcome.noConfusion hve
      cases hres : checkLoop b rtol atol rest with
      | passed =>
        rw [checkValues_cons, hres, specDisagreement_cons, if_pos hall]
        constructor
        · constructor
          · intro h; exact CheckResult.noConfusion h
          · rintro ⟨v, hv, ys, xs, rfl, rfl, q, hq, hviol⟩
            exfalso
            have h1 := (checkLoop_passed_iff (.num xs) rtol atol rest).mp
              hres (.num ys) hv
            obtain ⟨ys2, xs2, hy, hx, hlen, hbl⟩ :=
              allclose_ok_shape (.num ys) (.num xs) rtol atol true h1
            obtain rfl := (AttrValue.num.injEq .. ▸ hy).symm
            obtain rfl := (AttrValue.num.injEq .. ▸ hx).symm
            have := List.all_eq_true.mp hbl.symm q hq
            rw [decide_eq_true_eq] at this
            exact hviol this
        · intro h; exact CheckResult.noConfusion h
      | failedClose =>
        rw [checkValues_cons, hres, specDisagreement_cons, if_pos hall]
        constructor
        · constructor
          · intro _
            obtain ⟨v, hv, hvf⟩ :=
              checkLoop_failedClose_mem b rtol atol rest hres
            obtain ⟨ys, xs, hy, hx, hlen, hbl⟩ :=
              allclose_ok_shape _ _ rtol atol false hvf
            refine ⟨v, hv, ys, xs, hy, hx, ?_⟩
            have hfalse : ((ys.zip xs).all fun q =>
                decide (|q.1 - q.2| ≤ atol + rtol * |q.2|)) = false := hbl.symm
            rw [List.all_eq_false] at hfalse
            obtain ⟨q, hq, hqf⟩ := hfalse
            rw [decide_eq_true_eq] at hqf
            exact ⟨q, hq, hqf⟩
          · intro _; rfl
        · intro h; exact CheckResult.noConfusion h
      | typeErr => exact absurd hres hnt
      | valueErr => exact absurd hres hnv
    · -- a non-comparable value is present
      have hexu : ∃ u ∈ rest, numComparable u b = false := by
        by_contra hno
        push_neg at hno
        apply hall
        rw [List.all_eq_true]
        intro v hv
        cases h : numComparable v b
        · exact absurd h (hno v hv)
        · rfl
      obtain ⟨u, hu, hunc⟩ := hexu
      have hute : allclose u b rtol atol = .typeError :=
        allclose_typeError_of_not_comparable u b rtol atol hunc
          (hcompat2 u hu)
      have hnp : checkLoop b rtol atol rest ≠ .passed := by
        intro h
        have := (checkLoop_passed_iff b rtol atol rest).mp h u hu
        rw [hute] at this
        exact CmpOutcome.noConfusion this
      have hallf : ¬ rest.all (fun v => numComparable v b) = true := hall
      cases hres : checkLoop b rtol atol rest with
      | passed => exact absurd hres hnp
      | valueErr => exact absurd hres hnv
      | failedClose =>
        rw [checkValues_cons, hres, specDisagreement_cons, if_neg hallf]
        have hcard : 1 < (b :: rest).toFinset.card := by
          obtain ⟨v, hv, hvf⟩ :=
            checkLoop_failedClose_mem b rtol atol rest hres
          obtain ⟨ys, xs, hy, hx, hlen, hbl⟩ :=
            allclose_ok_shape _ _ rtol atol false hvf
          have hustr : ∃ t, u = .str t := by
            cases u with
            | num zs =>
              exfalso
              have hsm := hcompat2 (.num zs) hu
              rw [hx] at hunc hsm
              simp only [numComparable, shapeMismatch,
                decide_eq_false_iff_not] at hunc hsm
              exact hsm hunc
            | str t => exact ⟨t, rfl⟩
          obtain ⟨t, rfl⟩ := hustr
          apply Finset.one_lt_card.mpr
          refine ⟨.str t, ?_, b, ?_, ?_⟩
          · exact List.mem_toFinset.mpr (List.mem_cons_of_mem b hu)
          · exact List.mem_toFinset.mpr (List.mem_cons_self b rest)
          · rw [hx]; intro hc; exact AttrValue.noConfusion hc
        constructor
        · constructor
          · intro _; exact hcard
          · intro _; rfl
        · intro h; exact CheckResult.noConfusion h
      | typeErr =>
        rw [checkValues_cons, hres, specDisagreement_cons, if_neg hallf]
        by_cases hcard : 1 < (b :: rest).toFinset.card
        · rw [if_pos hcard]
          exact ⟨⟨fun _ => hcard, fun _ => rfl⟩,
            fun h => CheckResult.noConfusion h⟩
        · rw [if_neg hcard]
          constructor
          · constructor
            · intro h; exact CheckResult.noConfusion h
            · intro h; exact absurd h hcard
          · intro h; exact CheckResult.noConfusion h

/-- Claim C1: `check_consistent_attribute` raises a consistency error iff
some image's attribute value disagrees with the first image's value (in
insertion order): in the numerically comparable regime disagreement means
some element pair violates `|a − b| ≤ abs_tol + rel_tol·|b|` with the
first image's value as reference `b`; when the numeric comparison raises
a `TypeError` it means the set of all images' values has more than one
element.  The hypothesis rules out the remaining case, a numeric shape
mismatch, where numpy raises an error that is neither: under it the check
never propagates a comparison error.  The check is modelled as a pure
function: it inspects the subject and mutates nothing. -/
theorem claim_c1 (s : Subject) (attrName : String) (rtol atol : ℚ)
    (hcompat : ∀ v ∈ s.attrValues attrName, ∀ w ∈ s.attrValues attrName,
        shapeMismatch v w = false) :
    (s.checkConsistentAttribute attrName rtol atol = .consistencyError ↔
      specDisagreement (s.attrValues attrName) rtol atol)
    ∧ s.checkConsistentAttribute attrName rtol atol ≠ .comparisonError :=
  checkValues_spec (s.attrValues attrName) rtol atol hcompat

def demoSubject2 : Subject :=
  ⟨[("t1", Value.img demoImage), ("t2", Value.img demoImage2)], [],
    ["t1", "t2"]⟩

/-- Witness for C1 on a two-image subject whose spatial shapes differ. -/
theorem claim_c1_witness :
    (demoSubject2.checkConsistentAttribute "spatial_shape"
        (1 / 1000000) (1 / 1000000) = .consistencyError ↔
      specDisagreement (demoSubject2.attrValues "spatial_shape")
        (1 / 1000000) (1 / 1000000))
    ∧ demoSubject2.checkConsistentAttribute "spatial_shape"
        (1 / 1000000) (1 / 1000000) ≠ .comparisonError :=
  claim_c1 demoSubject2 "spatial_shape" (1 / 1000000) (1 / 1000000)
    (by decide)

end TorchioSpec
